import Mathlib

/-!
Verification of the Per Ankh Media & Analytics micro-service
(`server/index.js`): a shallow embedding of its data model and of the
operations behind its HTTP endpoints, together with theorems settling the
specification's claims about them.

Strings are modelled as `List Char`; JavaScript values that may be
`undefined` or `null` are modelled by the `JsStr` type; timestamps
(milliseconds since epoch) are modelled as `Int`; the nondeterministic
inputs of the service (clock, random draws, generated uuids, request
headers) are passed explicitly as parameters.
-/

/-- Strings of the embedded program, modelled as lists of characters. -/
abbrev Str := List Char

/-- The JavaScript test `hay.startsWith needle`. -/
def startsWithStr : Str → Str → Bool
  | _, [] => true
  | [], _ :: _ => false
  | a :: as, b :: bs => a == b && startsWithStr as bs

/-- The JavaScript test `hay.includes needle`: whether `needle` occurs as a
contiguous substring of `hay`. -/
def includesStr : Str → Str → Bool
  | hay, needle =>
    if startsWithStr hay needle then true
    else match hay with
      | [] => false
      | _ :: rest => includesStr rest needle

/-- The method `String.prototype.toLowerCase`, restricted to the ASCII case
mapping. -/
def toLowerStr (s : Str) : Str := s.map Char.toLower

/-- The helper `isAdminPath` from `server/index.js`: lowercase the path, then test
whether it starts with `/admin` or contains the substring `admin-`. -/
def isAdminPath (p : Str) : Bool :=
  let v := toLowerStr p
  startsWithStr v "/admin".toList || includesStr v "admin-".toList

/-- A JavaScript value that is either `undefined`, `null`, or a string;
the domain of the fields of a tracking request body. -/
inductive JsStr where
  | undef
  | nullv
  | str (s : Str)
deriving DecidableEq, Repr

/-- JavaScript truthiness on `JsStr`: `undefined`, `null` and the empty
string are falsy; every other string is truthy. -/
def JsStr.truthy : JsStr → Bool
  | .undef => false
  | .nullv => false
  | .str [] => false
  | .str (_ :: _) => true

/-- The expression `a || b` on a `JsStr` and a string default: the JavaScript logical-or,
which returns the first truthy operand and otherwise the last operand. -/
def jsOr (a : JsStr) (b : Str) : Str :=
  match a with
  | .str s => if (JsStr.str s).truthy then s else b
  | _ => b

/-- A stored analytics event (`AnalyticsEvent` of the spec): the object
pushed onto `db.events` by `POST /api/analytics/track`. -/
structure AnalyticsEvent where
  id : Str
  ts : Int
  type : JsStr
  path : Str
  referrer : Str
  device : Str
  sessionId : Str
  ip : Str
deriving DecidableEq, Repr

/-- The request body of `POST /api/analytics/track`:
`{type?, path?, page?, referrer?, device?, sessionId?}`, each field
possibly absent (`undefined`), `null`, or a string. -/
structure TrackBody where
  type : JsStr
  path : JsStr
  page : JsStr
  referrer : JsStr
  device : JsStr
  sessionId : JsStr
deriving DecidableEq, Repr

/-- The request headers the track route reads: `user-agent` and
`referer`, each possibly absent. -/
structure TrackHeaders where
  userAgent : JsStr
  referer : JsStr
deriving DecidableEq, Repr

/-- The response of `POST /api/analytics/track`:
`{ok:true, ignored:true}` or `{ok:true, eventId}`. -/
inductive TrackResult where
  | ignored
  | tracked (eventId : Str)
deriving DecidableEq, Repr

/-- The destructuring `const { path: pagePath = '/' } = req.body`:
the default `'/'` applies exactly when the field is `undefined`. -/
def destructDefault (v : JsStr) (d : Str) : JsStr :=
  match v with
  | .undef => .str d
  | x => x

/-- The value `finalPath` of the track route: `pagePath || page || '/'` where
`pagePath` is the destructured `path` field with default `'/'`. -/
def finalPathOf (body : TrackBody) : Str :=
  let pagePath := destructDefault body.path "/".toList
  if pagePath.truthy then jsOr pagePath "/".toList
  else if body.page.truthy then jsOr body.page "/".toList
  else "/".toList

/-- The route `POST /api/analytics/track` from `server/index.js`, as a function of
the request body and headers, the clock (`now = Date.now()`), the two
uuid draws (`newId` for the event, `sid` for a missing session id), the
request ip, and the current event log.  Returns the updated log and the
response: if `finalPath` is an admin path the log is unchanged and the
response carries `ignored:true`; otherwise the event is appended. -/
def track (body : TrackBody) (headers : TrackHeaders) (now : Int)
    (newId sid ip : Str) (log : List AnalyticsEvent) :
    List AnalyticsEvent × TrackResult :=
  let ua := jsOr headers.userAgent [];
  let finalPath := finalPathOf body
  if isAdminPath finalPath then (log, .ignored)
  else
    let event : AnalyticsEvent :=
      { id := newId
        ts := now
        type := destructDefault body.type "pageview".toList
        path := finalPath
        referrer := jsOr body.referrer (jsOr headers.referer [])
        device := jsOr body.device ua
        sessionId := jsOr body.sessionId sid
        ip := ip }
    (log ++ [event], .tracked newId)

/-- The window-duration table of `filterEvents`:
`{'1d': 864e5, '7d': 7*864e5, '30d': 30*864e5, '90d': 90*864e5,
'1y': 365*864e5}`, with unrecognized periods defaulting to `7d`
(`map[period] || map['7d']`). -/
def windowMs (period : Str) : Int :=
  if period = "1d".toList then 86400000
  else if period = "7d".toList then 7 * 86400000
  else if period = "30d".toList then 30 * 86400000
  else if period = "90d".toList then 90 * 86400000
  else if period = "1y".toList then 365 * 86400000
  else 7 * 86400000

/-- The helper `filterEvents` from `server/index.js`: keep the events with
`ts >= now - windowMs` whose path is not an admin path. -/
def filterEvents (now : Int) (events : List AnalyticsEvent) (period : Str) :
    List AnalyticsEvent :=
  let fromTs := now - windowMs period
  events.filter (fun e => decide (fromTs ≤ e.ts) && !isAdminPath e.path)

/-- The JavaScript `Map`-based counting pattern
`(m, e) => (m.set(k, (m.get(k) || 0) + 1), m)`: an insertion-ordered
association list where bumping an existing key increments it in place and
a new key is appended at the end. -/
def bumpCount (m : List (Str × Nat)) (k : Str) : List (Str × Nat) :=
  match m with
  | [] => [(k, 1)]
  | (k', v) :: rest =>
    if k' = k then (k', v + 1) :: rest else (k', v) :: bumpCount rest k

/-- The reduction `evs.reduce((m, e) => (m.set(key e, ...), m), new Map())` followed by
`Array.from(m.entries())`: counts of `key e` in first-occurrence order. -/
def countsBy (key : AnalyticsEvent → Str) (evs : List AnalyticsEvent) :
    List (Str × Nat) :=
  evs.foldl (fun m e => bumpCount m (key e)) []

/-- The function `Math.round` of JavaScript on a finite value: `⌊x + 0.5⌋`. -/
def jsRound (q : ℚ) : Int := ⌊q + 1 / 2⌋

/-- The response of `GET /api/analytics/summary`.  The constant-null
fields (`avgSession`, `newMembers`, `mobileTraffic`) are omitted from
the model. -/
structure SummaryOut where
  visitors : Nat
  pageViews : Nat
  bounceRate : ℚ
deriving DecidableEq, Repr

/-- The route `GET /api/analytics/summary` from `server/index.js`: filter to the
window, count events (`pageViews`), count distinct session ids
(`visitors`, via `new Set(...).size`), count sessions with exactly one
in-window event (`bounces`), and compute
`bounceRate = sessions ? Math.round((bounces / sessions) * 1000) / 10 : 0`. -/
def summary (now : Int) (events : List AnalyticsEvent) (period : Str) :
    SummaryOut :=
  let evs := filterEvents now events period
  let pageviews := evs.length
  let sessions := (evs.map (fun e => e.sessionId)).dedup.length
  let countsBySession := countsBy (fun e => e.sessionId) evs
  let bounces := (countsBySession.filter (fun p => p.2 == 1)).length
  let bounceRate : ℚ :=
    if sessions = 0 then 0
    else (jsRound ((bounces : ℚ) / (sessions : ℚ) * 1000) : ℚ) / 10
  { visitors := sessions, pageViews := pageviews, bounceRate := bounceRate }

/-- Stable insertion: place `a` immediately before the first element `b`
of the list with `le a b`; used to model the stable
`Array.prototype.sort`. -/
def insertStable (le : α → α → Bool) (a : α) : List α → List α
  | [] => [a]
  | b :: bs => if le a b then a :: b :: bs else b :: insertStable le a bs

/-- Stable sort by insertion, modelling JavaScript's
`Array.prototype.sort(cmp)` (required by the language specification to
be stable) with the order relation `le a b ↔ cmp a b ≤ 0`. -/
def sortStable (le : α → α → Bool) : List α → List α
  | [] => []
  | a :: as => insertStable le a (sortStable le as)

/-- The comparison `(a, b) => b[1] - a[1]` of the top-pages route, as an
order relation: `a` may come before `b` exactly when `b[1] - a[1] ≤ 0`. -/
def countDescLe (a b : Str × Nat) : Bool := decide (b.2 ≤ a.2)

/-- The route `GET /api/analytics/top-pages` from `server/index.js`: count in-window
events by path, sort the entries descending by count
(`.sort((a, b) => b[1] - a[1])`, a stable sort whose order relation is
`b[1] ≤ a[1]`), and keep the first 10 (`.slice(0, 10)`). -/
def topPages (now : Int) (events : List AnalyticsEvent) (period : Str) :
    List (Str × Nat) :=
  let evs := filterEvents now events period
  let counts := countsBy (fun e => e.path) evs
  (sortStable countDescLe counts).take 10

/-- A character allowed to start a URL scheme (WHATWG: an ASCII alpha). -/
def isSchemeStartChar (c : Char) : Bool := c.isAlpha

/-- A character allowed inside a URL scheme (WHATWG: ASCII alphanumeric,
`+`, `-`, or `.`). -/
def isSchemeChar (c : Char) : Bool :=
  c.isAlphanum || c == '+' || c == '-' || c == '.'

/-- Modelled from the WHATWG `URL` constructor used as `new URL(r).hostname`
(a platform builtin, not part of the repository): parsing succeeds only
when the input starts with a valid scheme followed by `:`; when the scheme
is followed by `//` the hostname is the authority up to the first
delimiter, lowercased; otherwise (e.g. `mailto:`) the hostname is empty.
Simplifications: userinfo, ports, IPv6 brackets and invalid-host-character
rejection are not modelled. -/
def parseHostname (r : Str) : Option Str :=
  let scheme := r.takeWhile (fun c => c ≠ ':')
  let rest := r.dropWhile (fun c => c ≠ ':')
  match rest with
  | [] => none
  | _ :: afterColon =>
    if scheme = [] then none
    else if !(isSchemeStartChar (scheme.headD ' ') &&
              scheme.all isSchemeChar) then none
    else match afterColon with
      | '/' :: '/' :: auth =>
        some (toLowerStr (auth.takeWhile (fun c =>
          c ≠ '/' && c ≠ '?' && c ≠ '#' && c ≠ ':' && c ≠ '@')))
      | _ => some []

/-- The classifier `sourceOf` from the `GET /api/analytics/sources` route: empty referrer
is `Direct`; otherwise parse the referrer as a URL and classify by
hostname substring (`google` → `Search`; `facebook`/`twitter`/`instagram`
→ `Social`; any other hostname → `Referral`); a referrer that fails to
parse is `Referral`. -/
def sourceOf (r : Str) : Str :=
  if r = [] then "Direct".toList
  else match parseHostname r with
    | none => "Referral".toList
    | some h =>
      if includesStr h "google".toList then "Search".toList
      else if includesStr h "facebook".toList || includesStr h "twitter".toList
           || includesStr h "instagram".toList then "Social".toList
      else "Referral".toList

/-- The route `GET /api/analytics/sources`: counts of `sourceOf e.referrer` over the
in-window events, in first-occurrence order. -/
def sources (now : Int) (events : List AnalyticsEvent) (period : Str) :
    List (Str × Nat) :=
  countsBy (fun e => sourceOf e.referrer) (filterEvents now events period)

/-- The case-insensitive regular-expression test `/Mobile|Android|iPhone/i`. -/
def testMobileUA (ua : Str) : Bool :=
  includesStr (toLowerStr ua) "mobile".toList
  || includesStr (toLowerStr ua) "android".toList
  || includesStr (toLowerStr ua) "iphone".toList

/-- The case-insensitive regular-expression test `/Tablet|iPad/i`. -/
def testTabletUA (ua : Str) : Bool :=
  includesStr (toLowerStr ua) "tablet".toList
  || includesStr (toLowerStr ua) "ipad".toList

/-- The classifier `deviceOf` from the `GET /api/analytics/devices` route:
`/Mobile|Android|iPhone/i` → `Mobile`, else `/Tablet|iPad/i` → `Tablet`,
else `Desktop`. -/
def deviceOf (ua : Str) : Str :=
  if testMobileUA ua then "Mobile".toList
  else if testTabletUA ua then "Tablet".toList
  else "Desktop".toList

/-- The route `GET /api/analytics/devices`: counts of `deviceOf e.device` over the
in-window events, in first-occurrence order. -/
def devices (now : Int) (events : List AnalyticsEvent) (period : Str) :
    List (Str × Nat) :=
  countsBy (fun e => deviceOf e.device) (filterEvents now events period)

/-- One row of the `GET /api/analytics/realtime` response. -/
structure RealtimeEntry where
  time : Str
  page : Str
  location : Str
  device : Str
  duration : Str
deriving DecidableEq, Repr

/-- The row built for an event by the realtime route: `location` and
`duration` are the placeholder `—`, and the device classification only
distinguishes `Mobile` (`/Mobile|Android|iPhone/i`) from `Desktop`.
`fmtTime` models the platform's `toLocaleTimeString`. -/
def realtimeEntryOf (fmtTime : Int → Str) (e : AnalyticsEvent) :
    RealtimeEntry :=
  { time := fmtTime e.ts
    page := e.path
    location := "—".toList
    device := if testMobileUA e.device then "Mobile".toList
              else "Desktop".toList
    duration := "—".toList }

/-- The route `GET /api/analytics/realtime` from `server/index.js`:
`events.slice(-50).reverse().slice(0, 20)` rendered by
`realtimeEntryOf`.  There is no period parameter and no window or
admin-path filtering. -/
def realtime (fmtTime : Int → Str) (events : List AnalyticsEvent) :
    List RealtimeEntry :=
  (((events.drop (events.length - 50)).reverse).take 20).map
    (realtimeEntryOf fmtTime)

/-- The decimal digit `d` (`0 ≤ d ≤ 9`) as a character, as produced by
JavaScript number-to-string conversion. -/
def digitChar (d : Nat) : Char := Char.ofNat (48 + d)

/-- The decimal representation of a natural number, as produced by
JavaScript template-literal interpolation of a nonnegative integer. -/
def natDigits (n : Nat) : Str :=
  if n < 10 then [digitChar n]
  else natDigits (n / 10) ++ [digitChar (n % 10)]
decreasing_by exact Nat.div_lt_self (by omega) (by omega)

/-- The platform's local-time functions, abstracted: `getHours` of a
timestamp (always in `0..23`), `dayKey d`/`dayLabel d` the
`toDateString`/`toLocaleDateString` of the current date shifted back `d`
days (the route computes them from `new Date(now)` via `setDate`), and
`tsKey` the `toDateString` of a timestamp. -/
structure TimeEnv where
  getHours : Int → Nat
  getHours_lt : ∀ t, getHours t < 24
  dayKey : Nat → Str
  dayLabel : Nat → Str
  tsKey : Int → Str

/-- The update `buckets.find(b => b.key === key)` followed by `b.value += 1`:
increment the first bucket whose key matches; leave the list unchanged
when no bucket matches (the event is silently dropped). -/
def bumpFirstKey (buckets : List (Str × Nat)) (k : Str) :
    List (Str × Nat) :=
  match buckets with
  | [] => []
  | (k', v) :: rest =>
    if k' = k then (k', v + 1) :: rest else (k', v) :: bumpFirstKey rest k

/-- The `days` table of the timeseries route:
`{'7d': 7, '30d': 30, '90d': 12, '1y': 12}` with default 7
(`days[period] || 7`). -/
def timeseriesBucketCount (period : Str) : Nat :=
  if period = "7d".toList then 7
  else if period = "30d".toList then 30
  else if period = "90d".toList then 12
  else if period = "1y".toList then 12
  else 7

/-- The route `GET /api/analytics/timeseries` from `server/index.js`: for period
`1d`, 24 hourly buckets labeled `"<h>:00"`, each event incrementing the
bucket of its local hour; otherwise `timeseriesBucketCount period`
daily buckets (oldest first: bucket `i` is `count-1-i` days back), each
event incrementing the first bucket whose key equals the event's date
key.  Returns `{labels, values}`. -/
def timeseries (env : TimeEnv) (now : Int) (events : List AnalyticsEvent)
    (period : Str) : List Str × List Nat :=
  let evs := filterEvents now events period
  if period = "1d".toList then
    let labels := (List.range 24).map (fun i => natDigits i ++ ":00".toList)
    let values := evs.foldl
      (fun bs e => bs.set (env.getHours e.ts) (bs.getD (env.getHours e.ts) 0 + 1))
      (List.replicate 24 0)
    (labels, values)
  else
    let count := timeseriesBucketCount period
    let buckets0 := (List.range count).map
      (fun i => (env.dayKey (count - 1 - i), 0))
    let final := evs.foldl (fun bs e => bumpFirstKey bs (env.tsKey e.ts)) buckets0
    let labels := (List.range count).map (fun i => env.dayLabel (count - 1 - i))
    (labels, final.map (fun b => b.2))

/-- A media catalog record (`MediaRecord` of the spec), as created by
`POST /api/media`. -/
structure MediaRecord where
  id : Str
  name : Str
  storedName : Str
  size : Nat
  type : Str
  uploadDate : Str
  url : Str
deriving DecidableEq, Repr, Inhabited

/-- A character kept unchanged by the upload-filename sanitizer:
the set `[A-Za-z0-9._-]`. -/
def isSafeFileChar (c : Char) : Bool :=
  c.isAlphanum || c == '.' || c == '_' || c == '-'

/-- The sanitization `file.originalname.replace(/[^A-Za-z0-9._-]/g, '_')` from the multer
storage configuration. -/
def sanitizeName (n : Str) : Str :=
  n.map (fun c => if isSafeFileChar c then c else '_')

/-- The stored filename generated by the multer storage configuration:
`` `${Date.now()}-${Math.round(Math.random() * 1e6)}-${safeName}` ``,
with the clock value `ts` and the random draw `rand` passed explicitly. -/
def storedNameOf (ts rand : Nat) (orig : Str) : Str :=
  natDigits ts ++ '-' :: (natDigits rand ++ '-' :: sanitizeName orig)

/-- The catalog record built by `POST /api/media` for one uploaded file:
a fresh uuid, the original name, the stored name (its own basename, since
it contains no path separator), and a url under `/uploads/media/`. -/
def uploadRecord (ts rand : Nat) (newId orig mimetype uploadDate : Str)
    (size : Nat) : MediaRecord :=
  { id := newId
    name := orig
    storedName := storedNameOf ts rand orig
    size := size
    type := mimetype
    uploadDate := uploadDate
    url := "/uploads/media/".toList ++ storedNameOf ts rand orig }

/-- The response of `DELETE /api/media/:id`: 404 `{error:'Not found'}`
when the id is absent, else `{ok:true}` after removing the record (whose
stored file is then deleted best-effort). -/
inductive DeleteResult where
  | notFound
  | ok (removed : MediaRecord)
deriving DecidableEq, Repr

/-- The route `DELETE /api/media/:id` from `server/index.js`:
`items.findIndex(m => m.id === id)`; on `-1`, respond 404 with the
catalog unwritten; otherwise `splice` the record out, persist the reduced
list, and delete the file best-effort.  Returns the resulting catalog and
the response. -/
def deleteMedia (items : List MediaRecord) (id : Str) :
    List MediaRecord × DeleteResult :=
  match items.findIdx? (fun m => m.id == id) with
  | none => (items, .notFound)
  | some idx => (items.eraseIdx idx, .ok (items.getD idx default))

/-- Modelled from the spec's words, for comparison with the code's
`summary`: rounding a percentage to one decimal place
(half rounded up, as `Math.round` does). -/
def specRound1 (x : ℚ) : ℚ := (⌊x * 10 + 1 / 2⌋ : ℚ) / 10

/-- Modelled from the spec's words: the total number of sessions that
produced at least one in-window event (distinct session ids). -/
def specSessions (evs : List AnalyticsEvent) : Nat :=
  (evs.map (fun e => e.sessionId)).dedup.length

/-- Modelled from the spec's words: the number of sessions that produced
exactly one in-window event. -/
def specBounces (evs : List AnalyticsEvent) : Nat :=
  ((evs.map (fun e => e.sessionId)).dedup.filter
    (fun sid => (evs.filter (fun e => e.sessionId == sid)).length == 1)).length

/-- Modelled from the spec's words:
`bounceRate = 100 * (sessions_with_exactly_1_event / total_sessions)`
rounded to one decimal place, or `0` if there are no sessions. -/
def specBounceRate (evs : List AnalyticsEvent) : ℚ :=
  if specSessions evs = 0 then 0
  else specRound1 (100 * ((specBounces evs : ℚ) / (specSessions evs : ℚ)))

/-- A fixture event used by the concrete test cases of the claims. -/
def baseEvent : AnalyticsEvent :=
  { id := [], ts := 0, type := .undef, path := "/".toList, referrer := [],
    device := [], sessionId := "s".toList, ip := [] }

/-- A fixture event with a given path and session id, at timestamp 0. -/
def mkEv (p sid : Str) : AnalyticsEvent :=
  { baseEvent with path := p, sessionId := sid }

/-- The bounce-rate boundary fixture of the spec: three sessions, two of
which produce exactly one event each while the third produces three. -/
def bounceFixture : List AnalyticsEvent :=
  [mkEv "/x".toList "s1".toList, mkEv "/x".toList "s2".toList,
   mkEv "/x".toList "s3".toList, mkEv "/y".toList "s3".toList,
   mkEv "/z".toList "s3".toList]

/-- The top-pages ranking fixture of the spec: five events for `/a` and
three each for `/b` and `/c`, interleaved. -/
def topPagesFixture : List AnalyticsEvent :=
  [mkEv "/a".toList "s".toList, mkEv "/b".toList "s".toList,
   mkEv "/a".toList "s".toList, mkEv "/c".toList "s".toList,
   mkEv "/a".toList "s".toList, mkEv "/b".toList "s".toList,
   mkEv "/c".toList "s".toList, mkEv "/a".toList "s".toList,
   mkEv "/b".toList "s".toList, mkEv "/c".toList "s".toList,
   mkEv "/a".toList "s".toList]

/-- A fixture media record with a given id. -/
def mkRecord (id : Str) : MediaRecord :=
  { id := id, name := [], storedName := [], size := 0, type := [],
    uploadDate := [], url := [] }

/-- A degenerate time environment used to instantiate witnesses. -/
def trivialTimeEnv : TimeEnv :=
  { getHours := fun _ => 0
    getHours_lt := fun _ => by norm_num
    dayKey := fun _ => []
    dayLabel := fun _ => []
    tsKey := fun _ => [] }

/-- The numeric value of a string of decimal digits, reading left to
right; the left inverse of `natDigits` used to prove it injective. -/
def digitsVal (l : Str) : Nat :=
  l.foldl (fun a c => a * 10 + (c.toNat - 48)) 0

theorem filterEvents_filter_admin (now : Int) (log : List AnalyticsEvent)
    (period : Str) :
    filterEvents now (log.filter (fun e => !isAdminPath e.path)) period
      = filterEvents now log period := by
  simp only [filterEvents, List.filter_filter]
  congr 1
  funext e
  cases h : isAdminPath e.path <;> simp [h]

theorem summary_congr {now : Int} {l₁ l₂ : List AnalyticsEvent} {period : Str}
    (h : filterEvents now l₁ period = filterEvents now l₂ period) :
    summary now l₁ period = summary now l₂ period := by
  simp only [summary]
  rw [h]

theorem topPages_congr {now : Int} {l₁ l₂ : List AnalyticsEvent} {period : Str}
    (h : filterEvents now l₁ period = filterEvents now l₂ period) :
    topPages now l₁ period = topPages now l₂ period := by
  simp only [topPages]
  rw [h]

theorem sources_congr {now : Int} {l₁ l₂ : List AnalyticsEvent} {period : Str}
    (h : filterEvents now l₁ period = filterEvents now l₂ period) :
    sources now l₁ period = sources now l₂ period := by
  simp only [sources]
  rw [h]

theorem devices_congr {now : Int} {l₁ l₂ : List AnalyticsEvent} {period : Str}
    (h : filterEvents now l₁ period = filterEvents now l₂ period) :
    devices now l₁ period = devices now l₂ period := by
  simp only [devices]
  rw [h]

theorem timeseries_congr {env : TimeEnv} {now : Int}
    {l₁ l₂ : List AnalyticsEvent} {period : Str}
    (h : filterEvents now l₁ period = filterEvents now l₂ period) :
    timeseries env now l₁ period = timeseries env now l₂ period := by
  simp only [timeseries]
  rw [h]

/-- C1: a tracking request whose path is administrative (starts with an
admin prefix or contains `admin-`) is acknowledged with `ignored:true`
and not appended to the event log; an admin-path event never passes the
window filter, so summary, timeseries and top-pages results are the same
as on the log with all admin-path events removed; the spec's example
path `/admin-dashboard.html` is indeed administrative. -/
theorem admin_paths_ignored_and_excluded :
    (∀ (body : TrackBody) (headers : TrackHeaders) (now : Int)
        (newId sid ip : Str) (log : List AnalyticsEvent),
        isAdminPath (finalPathOf body) = true →
        track body headers now newId sid ip log = (log, .ignored)) ∧
    (∀ (now : Int) (period : Str) (e : AnalyticsEvent)
        (log : List AnalyticsEvent),
        isAdminPath e.path = true → e ∉ filterEvents now log period) ∧
    (∀ (now : Int) (period : Str) (log : List AnalyticsEvent) (env : TimeEnv),
        summary now log period
          = summary now (log.filter (fun e => !isAdminPath e.path)) period ∧
        timeseries env now log period
          = timeseries env now (log.filter (fun e => !isAdminPath e.path)) period ∧
        topPages now log period
          = topPages now (log.filter (fun e => !isAdminPath e.path)) period) ∧
    isAdminPath "/admin-dashboard.html".toList = true := by
  refine ⟨?_, ?_, ?_, by decide⟩
  · intro body headers now newId sid ip log h
    simp [track, h]
  · intro now period e log hadm hin
    simp only [filterEvents, List.mem_filter] at hin
    rcases hin with ⟨-, h2⟩
    rw [hadm] at h2
    simp at h2
  · intro now period log env
    exact ⟨summary_congr (filterEvents_filter_admin now log period).symm,
      timeseries_congr (filterEvents_filter_admin now log period).symm,
      topPages_congr (filterEvents_filter_admin now log period).symm⟩

/-- Witness for C1 at concrete inputs: tracking a request whose body has
`path = /admin-dashboard.html` leaves an empty log unchanged and answers
`ignored`, and an event with that path is excluded by the window filter. -/
theorem admin_paths_ignored_and_excluded_witness :
    track ⟨.undef, .str "/admin-dashboard.html".toList, .undef, .undef,
        .undef, .undef⟩ ⟨.undef, .undef⟩ 0 [] [] [] []
      = ([], .ignored) ∧
    mkEv "/admin-dashboard.html".toList "s1".toList
      ∉ filterEvents 0 [mkEv "/admin-dashboard.html".toList "s1".toList]
          "7d".toList :=
  ⟨admin_paths_ignored_and_excluded.1 _ ⟨.undef, .undef⟩ 0 [] [] [] []
      (by decide),
   admin_paths_ignored_and_excluded.2.1 0 "7d".toList _ _ (by decide)⟩

/-- C4: deleting an id that no record of the catalog carries answers 404
`Not found` and returns the catalog unchanged (nothing is removed or
persisted). -/
theorem delete_unknown_id_not_found (items : List MediaRecord) (id : Str)
    (h : ∀ m ∈ items, m.id ≠ id) :
    deleteMedia items id = (items, .notFound) := by
  have hnone : items.findIdx? (fun m => m.id == id) = none := by
    rw [List.findIdx?_eq_none_iff]
    intro m hm
    simpa using h m hm
  simp [deleteMedia, hnone]

/-- Witness for C4: deleting id `b` from a catalog holding only id `a`. -/
theorem delete_unknown_id_not_found_witness :
    deleteMedia [mkRecord "a".toList] "b".toList
      = ([mkRecord "a".toList], .notFound) :=
  delete_unknown_id_not_found [mkRecord "a".toList] "b".toList (by decide)

/-- C5: in a three-record catalog `[A, B, C]` with pairwise distinct ids,
deleting `B`'s id removes exactly `B`, leaving `[A, C]` in order. -/
theorem delete_middle_record (A B C : MediaRecord)
    (hAB : A.id ≠ B.id) (_hBC : B.id ≠ C.id) (_hAC : A.id ≠ C.id) :
    deleteMedia [A, B, C] B.id = ([A, C], .ok B) := by
  have hA : (A.id == B.id) = false := by simpa using hAB
  have hB : (B.id == B.id) = true := by simp
  simp [deleteMedia, hA, hB]

/-- Witness for C5 on a concrete three-record catalog. -/
theorem delete_middle_record_witness :
    deleteMedia [mkRecord "a".toList, mkRecord "b".toList,
        mkRecord "c".toList] (mkRecord "b".toList).id
      = ([mkRecord "a".toList, mkRecord "c".toList],
         .ok (mkRecord "b".toList)) :=
  delete_middle_record (mkRecord "a".toList) (mkRecord "b".toList)
    (mkRecord "c".toList) (by decide) (by decide) (by decide)

/-- C10: when the tracking body omits `path` entirely (`undefined`), the
destructuring default makes the stored path `/` regardless of any `page`
value; when `path` is a truthy string the stored path is that string,
also regardless of `page`; the `page` fallback is consulted exactly when
`path` is present but falsy (`null` or the empty string). -/
theorem track_path_default_behavior :
    (∀ (body : TrackBody), body.path = .undef →
        finalPathOf body = "/".toList) ∧
    (∀ (body : TrackBody) (headers : TrackHeaders) (now : Int)
        (newId sid ip : Str) (log : List AnalyticsEvent),
        body.path = .undef →
        (track body headers now newId sid ip log).1.map (fun e => e.path)
          = log.map (fun e => e.path) ++ ["/".toList]) ∧
    (∀ (body : TrackBody) (s : Str), body.path = .str s → s ≠ [] →
        finalPathOf body = s) ∧
    (∀ (body : TrackBody), body.path = .nullv ∨ body.path = .str [] →
        finalPathOf body
          = (if body.page.truthy then jsOr body.page "/".toList
             else "/".toList)) := by
  have h1 : ∀ (body : TrackBody), body.path = .undef →
      finalPathOf body = "/".toList := by
    intro body h
    simp [finalPathOf, h, destructDefault, JsStr.truthy, jsOr]
  refine ⟨h1, ?_, ?_, ?_⟩
  · intro body headers now newId sid ip log h
    have hfp := h1 body h
    have hadm : isAdminPath ['/'] = false := by decide
    simp [track, hfp, hadm]
  · intro body s h hs
    cases s with
    | nil => exact absurd rfl hs
    | cons c cs => simp [finalPathOf, h, destructDefault, JsStr.truthy, jsOr]
  · intro body h
    rcases h with h | h <;>
      simp [finalPathOf, h, destructDefault, JsStr.truthy]

/-- Witness for C10 at concrete bodies: an absent `path` yields `/` even
though `page` is `/other`; a truthy `path` wins over `page`; an
empty-string `path` defers to the `page` fallback. -/
theorem track_path_default_behavior_witness :
    finalPathOf ⟨.undef, .undef, .str "/other".toList, .undef, .undef,
        .undef⟩ = "/".toList ∧
    (track ⟨.undef, .undef, .str "/other".toList, .undef, .undef, .undef⟩
        ⟨.undef, .undef⟩ 0 [] [] [] []).1.map (fun e => e.path)
      = List.map (fun e => e.path) ([] : List AnalyticsEvent)
          ++ ["/".toList] ∧
    finalPathOf ⟨.undef, .str "/p".toList, .str "/other".toList, .undef,
        .undef, .undef⟩ = "/p".toList ∧
    finalPathOf ⟨.undef, .str [], .str "/other".toList, .undef, .undef,
        .undef⟩
      = (if (JsStr.str "/other".toList).truthy
         then jsOr (.str "/other".toList) "/".toList else "/".toList) :=
  ⟨track_path_default_behavior.1 _ rfl,
   track_path_default_behavior.2.1 _ ⟨.undef, .undef⟩ 0 [] [] [] [] rfl,
   track_path_default_behavior.2.2.1 _ _ rfl (by decide),
   track_path_default_behavior.2.2.2 _ (Or.inr rfl)⟩

/-- C9: the realtime feed never reports the device class `Tablet`: every
realtime row's device is `Mobile` or `Desktop`; and for a user-agent
matching `/Tablet|iPad/i` but not `/Mobile|Android|iPhone/i`, the devices
endpoint classifies it `Tablet` while the realtime row for the same event
says `Desktop`. -/
theorem realtime_never_reports_tablet :
    (∀ (fmtTime : Int → Str) (events : List AnalyticsEvent)
        (entry : RealtimeEntry), entry ∈ realtime fmtTime events →
        entry.device ≠ "Tablet".toList) ∧
    (∀ ua : Str, testTabletUA ua = true → testMobileUA ua = false →
        deviceOf ua = "Tablet".toList) ∧
    (∀ (fmtTime : Int → Str) (e : AnalyticsEvent),
        testTabletUA e.device = true → testMobileUA e.device = false →
        (realtimeEntryOf fmtTime e).device = "Desktop".toList) := by
  refine ⟨?_, ?_, ?_⟩
  · intro fmtTime events entry hmem
    simp only [realtime, List.mem_map] at hmem
    obtain ⟨e, -, rfl⟩ := hmem
    simp only [realtimeEntryOf]
    split <;> decide
  · intro ua ht hm
    simp [deviceOf, hm, ht]
  · intro fmtTime e ht hm
    simp [realtimeEntryOf, hm]

/-- Witness for C9: the user-agent `iPad` is classified `Tablet` by the
devices endpoint and `Desktop` by the realtime feed. -/
theorem realtime_never_reports_tablet_witness :
    deviceOf "iPad".toList = "Tablet".toList ∧
    (realtimeEntryOf (fun _ => [])
        { baseEvent with device := "iPad".toList }).device
      = "Desktop".toList :=
  ⟨realtime_never_reports_tablet.2.1 "iPad".toList (by decide) (by decide),
   realtime_never_reports_tablet.2.2 (fun _ => [])
     { baseEvent with device := "iPad".toList } (by decide) (by decide)⟩

theorem filterEvents_drop_old {now : Int} {period : Str}
    {e : AnalyticsEvent} (h : e.ts < now - windowMs period)
    (pre post : List AnalyticsEvent) :
    filterEvents now (pre ++ e :: post) period
      = filterEvents now (pre ++ post) period := by
  have hf : (decide (now - windowMs period ≤ e.ts) && !isAdminPath e.path)
      = false := by
    have h2 : ¬ (now - windowMs period ≤ e.ts) := by omega
    simp [h2]
  simp only [filterEvents, List.filter_append, List.filter_cons, hf]
  simp

theorem realtime_eq_take_reverse (fmtTime : Int → Str)
    (events : List AnalyticsEvent) :
    realtime fmtTime events
      = (events.reverse.take 20).map (realtimeEntryOf fmtTime) := by
  simp only [realtime]
  congr 1
  rw [List.reverse_drop, List.take_take, List.take_eq_take]
  simp
  omega

/-- C3: an event older than the period's window is excluded by the window
filter, and removing such an event from the log leaves the summary,
timeseries, top-pages, sources and devices results unchanged; realtime
ignores the window entirely, returning the 20 most recent stored events
most-recent-first with `location` and `duration` as the placeholder `—`,
so the newest event always appears in it regardless of its timestamp. -/
theorem old_events_excluded_but_realtime_unwindowed :
    (∀ (now : Int) (period : Str) (e : AnalyticsEvent)
        (log : List AnalyticsEvent), e.ts < now - windowMs period →
        e ∉ filterEvents now log period) ∧
    (∀ (now : Int) (period : Str) (e : AnalyticsEvent)
        (pre post : List AnalyticsEvent) (env : TimeEnv),
        e.ts < now - windowMs period →
        summary now (pre ++ e :: post) period
          = summary now (pre ++ post) period ∧
        timeseries env now (pre ++ e :: post) period
          = timeseries env now (pre ++ post) period ∧
        topPages now (pre ++ e :: post) period
          = topPages now (pre ++ post) period ∧
        sources now (pre ++ e :: post) period
          = sources now (pre ++ post) period ∧
        devices now (pre ++ e :: post) period
          = devices now (pre ++ post) period) ∧
    (∀ (fmtTime : Int → Str) (events : List AnalyticsEvent),
        realtime fmtTime events
          = (events.reverse.take 20).map (realtimeEntryOf fmtTime)) ∧
    (∀ (fmtTime : Int → Str) (e : AnalyticsEvent)
        (log : List AnalyticsEvent),
        realtimeEntryOf fmtTime e ∈ realtime fmtTime (log ++ [e])) ∧
    (∀ (fmtTime : Int → Str) (e : AnalyticsEvent),
        (realtimeEntryOf fmtTime e).location = "—".toList ∧
        (realtimeEntryOf fmtTime e).duration = "—".toList) := by
  refine ⟨?_, ?_, realtime_eq_take_reverse, ?_, fun _ _ => ⟨rfl, rfl⟩⟩
  · intro now period e log h hin
    simp only [filterEvents, List.mem_filter, Bool.and_eq_true,
      decide_eq_true_eq] at hin
    omega
  · intro now period e pre post env h
    exact ⟨summary_congr (filterEvents_drop_old h pre post),
      timeseries_congr (filterEvents_drop_old h pre post),
      topPages_congr (filterEvents_drop_old h pre post),
      sources_congr (filterEvents_drop_old h pre post),
      devices_congr (filterEvents_drop_old h pre post)⟩
  · intro fmtTime e log
    rw [realtime_eq_take_reverse]
    apply List.mem_map_of_mem
    rw [List.reverse_append]
    simp only [List.reverse_cons, List.reverse_nil, List.nil_append,
      List.cons_append, List.take_succ_cons]
    exact List.mem_cons_self _ _

/-- Witness for C3: with the clock at `10^12` and period `7d`, an event
at timestamp 0 is outside the window and filtered out, and dropping it
leaves the summary unchanged. -/
theorem old_events_excluded_but_realtime_unwindowed_witness :
    baseEvent ∉ filterEvents 1000000000000 [baseEvent] "7d".toList ∧
    summary 1000000000000 ([] ++ baseEvent :: []) "7d".toList
      = summary 1000000000000 ([] ++ []) "7d".toList :=
  ⟨old_events_excluded_but_realtime_unwindowed.1 1000000000000
      "7d".toList baseEvent [baseEvent] (by decide),
   (old_events_excluded_but_realtime_unwindowed.2.1 1000000000000
      "7d".toList baseEvent [] [] trivialTimeEnv (by decide)).1⟩

theorem sourceOf_parsed (r h : Str) (hr : r ≠ []) (hp : parseHostname r = some h) :
    sourceOf r
      = (if includesStr h "google".toList then "Search".toList
         else if includesStr h "facebook".toList
             || includesStr h "twitter".toList
             || includesStr h "instagram".toList then "Social".toList
         else "Referral".toList) := by
  simp only [sourceOf, if_neg hr, hp]

/-- C7: every referrer is classified into exactly one of Direct, Search,
Social, Referral: empty referrer → Direct; parsed hostname containing
`google` → Search; hostname containing `facebook`, `twitter` or
`instagram` (and not `google`) → Social; any other parsed hostname, or a
referrer that fails to parse as a URL → Referral.  The spec's examples:
`https://www.google.com/search?q=x` is Search and `not a url` is
Referral. -/
theorem source_classification :
    (∀ r : Str, sourceOf r = "Direct".toList ∨ sourceOf r = "Search".toList
        ∨ sourceOf r = "Social".toList
        ∨ sourceOf r = "Referral".toList) ∧
    sourceOf [] = "Direct".toList ∧
    (∀ r : Str, r ≠ [] → parseHostname r = none →
        sourceOf r = "Referral".toList) ∧
    (∀ (r h : Str), r ≠ [] → parseHostname r = some h →
        includesStr h "google".toList = true →
        sourceOf r = "Search".toList) ∧
    (∀ (r h : Str), r ≠ [] → parseHostname r = some h →
        includesStr h "google".toList = false →
        (includesStr h "facebook".toList || includesStr h "twitter".toList
          || includesStr h "instagram".toList) = true →
        sourceOf r = "Social".toList) ∧
    (∀ (r h : Str), r ≠ [] → parseHostname r = some h →
        includesStr h "google".toList = false →
        (includesStr h "facebook".toList || includesStr h "twitter".toList
          || includesStr h "instagram".toList) = false →
        sourceOf r = "Referral".toList) ∧
    sourceOf "https://www.google.com/search?q=x".toList
      = "Search".toList ∧
    sourceOf "not a url".toList = "Referral".toList := by
  refine ⟨?_, by decide, ?_, ?_, ?_, ?_, by decide, by decide⟩
  · intro r
    by_cases hr : r = []
    · exact Or.inl (by simp [sourceOf, hr])
    · cases hp : parseHostname r with
      | none => exact Or.inr (Or.inr (Or.inr (by simp [sourceOf, hr, hp])))
      | some h =>
        rw [sourceOf_parsed r h hr hp]
        by_cases hg : includesStr h "google".toList = true
        · rw [if_pos hg]
          exact Or.inr (Or.inl rfl)
        · rw [if_neg hg]
          by_cases hs : (includesStr h "facebook".toList
              || includesStr h "twitter".toList
              || includesStr h "instagram".toList) = true
          · rw [if_pos hs]
            exact Or.inr (Or.inr (Or.inl rfl))
          · rw [if_neg hs]
            exact Or.inr (Or.inr (Or.inr rfl))
  · intro r hr hp
    simp [sourceOf, hr, hp]
  · intro r h hr hp hg
    rw [sourceOf_parsed r h hr hp, if_pos hg]
  · intro r h hr hp hg hs
    rw [sourceOf_parsed r h hr hp, if_neg (by rw [hg]; simp), if_pos hs]
  · intro r h hr hp hg hs
    rw [sourceOf_parsed r h hr hp, if_neg (by rw [hg]; simp),
      if_neg (by rw [hs]; simp)]

/-- Witness for C7: the Google referrer example classifies as Search via
the hostname rule, a facebook referrer as Social, and an unparseable
referrer as Referral. -/
theorem source_classification_witness :
    sourceOf "https://www.google.com/search?q=x".toList
      = "Search".toList ∧
    sourceOf "https://facebook.com/x".toList = "Social".toList ∧
    sourceOf "not a url".toList = "Referral".toList :=
  ⟨source_classification.2.2.2.1 "https://www.google.com/search?q=x".toList
      "www.google.com".toList (by decide) (by decide) (by decide),
   source_classification.2.2.2.2.1 "https://facebook.com/x".toList
      "facebook.com".toList (by decide) (by decide) (by decide) (by decide),
   source_classification.2.2.1 "not a url".toList (by decide) (by decide)⟩

theorem insertStable_split (le : α → α → Bool) (a : α) (t : List α) :
    ∃ t₁ t₂, insertStable le a t = t₁ ++ a :: t₂ ∧ t = t₁ ++ t₂ ∧
      ∀ y ∈ t₁, le a y = false := by
  induction t with
  | nil => exact ⟨[], [], rfl, rfl, by simp⟩
  | cons b bs ih =>
    by_cases h : le a b = true
    · exact ⟨[], b :: bs, by simp [insertStable, h], rfl, by simp⟩
    · obtain ⟨t₁, t₂, h1, h2, h3⟩ := ih
      refine ⟨b :: t₁, t₂, ?_, by simp [h2], ?_⟩
      · simp [insertStable, h, h1]
      · intro y hy
        rcases List.mem_cons.mp hy with rfl | hy
        · exact Bool.eq_false_iff.mpr h
        · exact h3 y hy

theorem insertStable_perm (le : α → α → Bool) (a : α) (t : List α) :
    (insertStable le a t).Perm (a :: t) := by
  obtain ⟨t₁, t₂, h1, h2, -⟩ := insertStable_split le a t
  rw [h1, h2]
  exact List.perm_middle

theorem sortStable_perm (le : α → α → Bool) (l : List α) :
    (sortStable le l).Perm l := by
  induction l with
  | nil => exact List.Perm.refl []
  | cons a as ih =>
    exact (insertStable_perm le a (sortStable le as)).trans (ih.cons a)

theorem pairwise_insertStable {le : α → α → Bool}
    (htrans : ∀ a b c, le a b = true → le b c = true → le a c = true)
    (htotal : ∀ a b, (le a b || le b a) = true) (a : α) {t : List α}
    (ht : t.Pairwise (fun x y => le x y = true)) :
    (insertStable le a t).Pairwise (fun x y => le x y = true) := by
  induction t with
  | nil => simp [insertStable]
  | cons b bs ih =>
    rcases List.pairwise_cons.mp ht with ⟨hb, hbs⟩
    by_cases h : le a b = true
    · simp only [insertStable, if_pos h]
      refine List.Pairwise.cons ?_ ht
      intro y hy
      rcases List.mem_cons.mp hy with rfl | hy
      · exact h
      · exact htrans a b y h (hb y hy)
    · simp only [insertStable, if_neg h]
      refine List.Pairwise.cons ?_ (ih hbs)
      intro y hy
      have hmem := (insertStable_perm le a bs).mem_iff.mp hy
      rcases List.mem_cons.mp hmem with h5 | hy2
      · subst h5
        rcases Bool.or_eq_true_iff.mp (htotal y b) with h1 | h1
        · exact absurd h1 h
        · exact h1
      · exact hb y hy2

theorem sorted_sortStable {le : α → α → Bool}
    (htrans : ∀ a b c, le a b = true → le b c = true → le a c = true)
    (htotal : ∀ a b, (le a b || le b a) = true) (l : List α) :
    (sortStable le l).Pairwise (fun x y => le x y = true) := by
  induction l with
  | nil => simp [sortStable]
  | cons a as ih =>
    exact pairwise_insertStable htrans htotal a ih

theorem pair_sublist_sortStable {le : α → α → Bool} {a b : α}
    (hab : le a b = true) {l : List α} (h : List.Sublist [a, b] l) :
    List.Sublist [a, b] (sortStable le l) := by
  induction l with
  | nil => simp at h
  | cons x xs ih =>
    cases h with
    | cons _ h2 =>
      have hsub := ih h2
      obtain ⟨t₁, t₂, h1, heq, -⟩ :=
        insertStable_split le x (sortStable le xs)
      show List.Sublist [a, b] (insertStable le x (sortStable le xs))
      rw [h1]
      rw [heq] at hsub
      exact hsub.trans ((List.sublist_cons_self x t₂).append_left t₁)
    | cons₂ _ h2 =>
      have hbmem : b ∈ sortStable le xs :=
        (sortStable_perm le xs).mem_iff.mpr (List.singleton_sublist.mp h2)
      obtain ⟨t₁, t₂, h1, heq, h3⟩ :=
        insertStable_split le a (sortStable le xs)
      show List.Sublist [a, b] (insertStable le a (sortStable le xs))
      rw [h1]
      have hbt2 : b ∈ t₂ := by
        rw [heq] at hbmem
        rcases List.mem_append.mp hbmem with h4 | h4
        · rw [h3 b h4] at hab
          exact absurd hab (by simp)
        · exact h4
      exact ((List.singleton_sublist.mpr hbt2).cons₂ a).trans
        (List.sublist_append_right t₁ (a :: t₂))

theorem countDescLe_trans (a b c : Str × Nat) (h1 : countDescLe a b = true)
    (h2 : countDescLe b c = true) : countDescLe a c = true := by
  simp only [countDescLe, decide_eq_true_eq] at h1 h2 ⊢
  omega

theorem countDescLe_total (a b : Str × Nat) :
    (countDescLe a b || countDescLe b a) = true := by
  simp only [countDescLe, Bool.or_eq_true, decide_eq_true_eq]
  omega

/-- C8: the top-pages result has at most 10 entries, is sorted descending
by count, and together with the discarded tail is a permutation of the
per-path counts of the in-window events; ties (equal counts) keep their
first-occurrence order in the sorted list (stability); on the spec's
fixture (5 events for `/a`, 3 for `/b`, 3 for `/c`) the result is exactly
`/a:5` first, then `/b:3` and `/c:3`, and no other path. -/
theorem top_pages_ranking :
    (∀ (now : Int) (events : List AnalyticsEvent) (period : Str),
        (topPages now events period).length ≤ 10) ∧
    (∀ (now : Int) (events : List AnalyticsEvent) (period : Str),
        (topPages now events period).Pairwise (fun a b => b.2 ≤ a.2)) ∧
    (∀ (now : Int) (events : List AnalyticsEvent) (period : Str),
        ∃ rest, (topPages now events period ++ rest).Perm
          (countsBy (fun e => e.path) (filterEvents now events period))) ∧
    (∀ (now : Int) (events : List AnalyticsEvent) (period : Str)
        (p q : Str × Nat), q.2 ≤ p.2 →
        List.Sublist [p, q]
          (countsBy (fun e => e.path) (filterEvents now events period)) →
        List.Sublist [p, q] (sortStable countDescLe
          (countsBy (fun e => e.path) (filterEvents now events period)))) ∧
    topPages 0 topPagesFixture "7d".toList
      = [("/a".toList, 5), ("/b".toList, 3), ("/c".toList, 3)] := by
  refine ⟨?_, ?_, ?_, ?_, by decide⟩
  · intro now events period
    simp only [topPages]
    exact List.length_take_le 10 _
  · intro now events period
    have hs := sorted_sortStable countDescLe_trans countDescLe_total
      (countsBy (fun e => e.path) (filterEvents now events period))
    have ht := hs.sublist (List.take_sublist 10 _)
    exact ht.imp (fun hab => by
      simpa [countDescLe, decide_eq_true_eq] using hab)
  · intro now events period
    refine ⟨(sortStable countDescLe
      (countsBy (fun e => e.path) (filterEvents now events period))).drop 10,
      ?_⟩
    simp only [topPages]
    rw [List.take_append_drop]
    exact sortStable_perm _ _
  · intro now events period p q hle hsub
    exact pair_sublist_sortStable (by simpa [countDescLe] using hle) hsub

/-- Witness for C8: on the fixture, the tied entries `/b:3` and `/c:3`
keep their first-occurrence order through the stable sort. -/
theorem top_pages_ranking_witness :
    List.Sublist [("/b".toList, 3), ("/c".toList, 3)]
      (sortStable countDescLe (countsBy (fun e => e.path)
        (filterEvents 0 topPagesFixture "7d".toList))) :=
  top_pages_ranking.2.2.2.1 0 topPagesFixture "7d".toList
    ("/b".toList, 3) ("/c".toList, 3) (by decide) (by decide)

theorem lookup_bumpCount_self (m : List (Str × Nat)) (k : Str) :
    List.lookup k (bumpCount m k)
      = some ((List.lookup k m).getD 0 + 1) := by
  induction m with
  | nil => simp [bumpCount, List.lookup]
  | cons p rest ih =>
    obtain ⟨k', v⟩ := p
    by_cases h : k' = k
    · subst h
      simp [bumpCount, List.lookup]
    · have hbeq : (k == k') = false := by simp [Ne.symm h]
      simp [bumpCount, h, List.lookup, hbeq, ih]

theorem lookup_bumpCount_ne (m : List (Str × Nat)) {k k' : Str}
    (h : k' ≠ k) :
    List.lookup k' (bumpCount m k) = List.lookup k' m := by
  have hbeq : (k' == k) = false := by simp [h]
  induction m with
  | nil => simp [bumpCount, List.lookup, hbeq]
  | cons p rest ih =>
    obtain ⟨k'', v⟩ := p
    by_cases h2 : k'' = k
    · subst h2
      simp [bumpCount, List.lookup, hbeq]
    · simp [bumpCount, h2, List.lookup, ih]

theorem bumpCount_keys (m : List (Str × Nat)) (k : Str) :
    (bumpCount m k).map Prod.fst
      = if k ∈ m.map Prod.fst then m.map Prod.fst
        else m.map Prod.fst ++ [k] := by
  induction m with
  | nil => simp [bumpCount]
  | cons p rest ih =>
    obtain ⟨k', v⟩ := p
    by_cases h : k' = k
    · subst h
      simp [bumpCount]
    · by_cases h2 : k ∈ rest.map Prod.fst
      · simp [bumpCount, h, ih, h2, Ne.symm h]
      · simp [bumpCount, h, ih, h2, Ne.symm h]

theorem countsBy_append_singleton (key : AnalyticsEvent → Str)
    (xs : List AnalyticsEvent) (e : AnalyticsEvent) :
    countsBy key (xs ++ [e]) = bumpCount (countsBy key xs) (key e) := by
  simp [countsBy, List.foldl_append]

theorem countsBy_char (key : AnalyticsEvent → Str)
    (evs : List AnalyticsEvent) :
    ((countsBy key evs).map Prod.fst).Nodup ∧
    (∀ k, k ∈ (countsBy key evs).map Prod.fst ↔ k ∈ evs.map key) ∧
    (∀ k, List.lookup k (countsBy key evs)
      = if k ∈ evs.map key then some ((evs.map key).count k) else none) := by
  induction evs using List.reverseRecOn with
  | nil => simp [countsBy, List.lookup]
  | append_singleton xs e ih =>
    obtain ⟨ih1, ih2, ih3⟩ := ih
    rw [countsBy_append_singleton]
    have hL : (xs ++ [e]).map key = xs.map key ++ [key e] := by simp
    refine ⟨?_, ?_, ?_⟩
    · rw [bumpCount_keys]
      by_cases hke : key e ∈ (countsBy key xs).map Prod.fst
      · rw [if_pos hke]
        exact ih1
      · rw [if_neg hke]
        rw [List.nodup_append]
        refine ⟨ih1, List.nodup_singleton _, ?_⟩
        intro a ha hb
        rw [List.mem_singleton] at hb
        subst hb
        exact hke ha
    · intro k
      rw [bumpCount_keys, hL, List.mem_append, List.mem_singleton]
      by_cases hke : key e ∈ (countsBy key xs).map Prod.fst
      · rw [if_pos hke]
        rw [ih2 k]
        constructor
        · exact Or.inl
        · rintro (h | rfl)
          · exact h
          · exact (ih2 (key e)).mp hke
      · rw [if_neg hke]
        rw [List.mem_append, List.mem_singleton, ih2 k]
    · intro k
      rw [hL]
      by_cases hk : k = key e
      · subst hk
        rw [lookup_bumpCount_self, ih3 (key e)]
        have hmem : key e ∈ xs.map key ++ [key e] := by simp
        rw [if_pos hmem]
        by_cases hin : key e ∈ xs.map key
        · rw [if_pos hin]
          simp [List.count_append, List.count_singleton]
        · rw [if_neg hin]
          have hz : (xs.map key).count (key e) = 0 :=
            List.count_eq_zero.mpr hin
          simp [List.count_append, List.count_singleton, hz]
      · rw [lookup_bumpCount_ne _ hk, ih3 k]
        have hcnt : (xs.map key ++ [key e]).count k = (xs.map key).count k := by
          have : ([key e] : List Str).count k = 0 :=
            List.count_eq_zero.mpr (by simp [hk])
          simp [List.count_append, this]
        have hmem2 : k ∈ xs.map key ++ [key e] ↔ k ∈ xs.map key := by
          simp [List.mem_append, hk]
        by_cases hin : k ∈ xs.map key
        · rw [if_pos hin, if_pos (hmem2.mpr hin), hcnt]
        · rw [if_neg hin, if_neg (fun hh => hin (hmem2.mp hh))]

theorem lookup_of_mem_of_nodupKeys {m : List (Str × Nat)}
    (h : (m.map Prod.fst).Nodup) {p : Str × Nat} (hp : p ∈ m) :
    List.lookup p.1 m = some p.2 := by
  induction m with
  | nil => simp at hp
  | cons q rest ih =>
    obtain ⟨qk, qv⟩ := q
    rw [List.map_cons] at h
    have h1 := (List.nodup_cons.mp h).1
    have h2 := (List.nodup_cons.mp h).2
    rcases List.mem_cons.mp hp with hq | hp2
    · subst hq
      simp [List.lookup]
    · have hk : (p.1 == qk) = false := by
        rw [beq_eq_false_iff_ne]
        intro hh
        exact h1 (List.mem_map.mpr ⟨p, hp2, hh⟩)
      simp only [List.lookup, hk]
      exact ih h2 hp2

theorem countsBy_bounce_count (key : AnalyticsEvent → Str)
    (evs : List AnalyticsEvent) :
    ((countsBy key evs).filter (fun p => p.2 == 1)).length
      = ((evs.map key).dedup.filter
          (fun k => (evs.map key).count k == 1)).length := by
  obtain ⟨h1, h2, h3⟩ := countsBy_char key evs
  have hval : ∀ p ∈ countsBy key evs, p.2 = (evs.map key).count p.1 := by
    intro p hp
    have hl := lookup_of_mem_of_nodupKeys h1 hp
    have hk : p.1 ∈ evs.map key :=
      (h2 p.1).mp (List.mem_map.mpr ⟨p, hp, rfl⟩)
    rw [h3 p.1, if_pos hk] at hl
    exact (Option.some.inj hl).symm
  have hfeq : (countsBy key evs).filter (fun p => p.2 == 1)
      = (countsBy key evs).filter
          (fun p => (evs.map key).count p.1 == 1) :=
    List.filter_congr (fun p hp => by rw [hval p hp])
  rw [hfeq]
  have hmapf : ((countsBy key evs).filter
        (fun p => (evs.map key).count p.1 == 1)).map Prod.fst
      = ((countsBy key evs).map Prod.fst).filter
          (fun k => (evs.map key).count k == 1) := by
    rw [show (fun p : Str × Nat => ((evs.map key).count p.1 == 1))
        = ((fun k => (evs.map key).count k == 1) ∘ Prod.fst) from rfl,
      List.filter_map]
  have hperm : ((countsBy key evs).map Prod.fst).Perm (evs.map key).dedup :=
    (List.perm_ext_iff_of_nodup h1 (List.nodup_dedup _)).mpr
      (fun k => by rw [h2 k, List.mem_dedup])
  calc ((countsBy key evs).filter
        (fun p => (evs.map key).count p.1 == 1)).length
      = (((countsBy key evs).filter
          (fun p => (evs.map key).count p.1 == 1)).map Prod.fst).length :=
        (List.length_map _ _).symm
    _ = (((countsBy key evs).map Prod.fst).filter
          (fun k => (evs.map key).count k == 1)).length := by rw [hmapf]
    _ = ((evs.map key).dedup.filter
          (fun k => (evs.map key).count k == 1)).length :=
        (hperm.filter _).length_eq

theorem count_sessionId_eq_filter_length (evs : List AnalyticsEvent)
    (sid : Str) :
    (evs.map (fun e => e.sessionId)).count sid
      = (evs.filter (fun e => e.sessionId == sid)).length := by
  rw [List.count_eq_countP, List.countP_map, List.countP_eq_length_filter]
  rfl

/-- C2: the summary's `bounceRate` equals, for every log and period, the
spec formula `100 * (sessions with exactly one in-window event / total
in-window sessions)` rounded to one decimal place (0 when there are no
sessions); on the spec's boundary fixture (sessions of 1, 1 and 3
events) it is exactly `66.7`. -/
theorem summary_bounce_rate :
    (∀ (now : Int) (events : List AnalyticsEvent) (period : Str),
        (summary now events period).bounceRate
          = specBounceRate (filterEvents now events period)) ∧
    (summary 0 bounceFixture "7d".toList).bounceRate = 667 / 10 ∧
    specSessions (filterEvents 0 bounceFixture "7d".toList) = 3 ∧
    specBounces (filterEvents 0 bounceFixture "7d".toList) = 2 := by
  have hmain : ∀ (now : Int) (events : List AnalyticsEvent) (period : Str),
      (summary now events period).bounceRate
        = specBounceRate (filterEvents now events period) := by
    intro now events period
    set evs := filterEvents now events period with hevs
    simp only [summary, specBounceRate, specSessions, specBounces,
      specRound1, jsRound]
    have hb : ((countsBy (fun e => e.sessionId) evs).filter
          (fun p => p.2 == 1)).length
        = ((evs.map (fun e => e.sessionId)).dedup.filter
            (fun sid =>
              (evs.filter (fun e => e.sessionId == sid)).length
                == 1)).length := by
      rw [countsBy_bounce_count]
      congr 1
      apply List.filter_congr
      intro k _
      rw [count_sessionId_eq_filter_length evs k]
    rw [hb]
    split_ifs with h
    · rfl
    · congr 2
      ring_nf
  refine ⟨hmain, ?_, by decide, by decide⟩
  rw [hmain 0 bounceFixture "7d".toList]
  have hs : specSessions (filterEvents 0 bounceFixture "7d".toList) = 3 :=
    by decide
  have hbn : specBounces (filterEvents 0 bounceFixture "7d".toList) = 2 :=
    by decide
  rw [specBounceRate, hs, hbn]
  norm_num [specRound1]

theorem digitChar_ne_dash (d : Nat) (h : d < 10) : digitChar d ≠ '-' := by
  interval_cases d <;> decide

theorem digitChar_toNat (d : Nat) (h : d < 10) :
    (digitChar d).toNat = 48 + d := by
  interval_cases d <;> decide

theorem natDigits_ne_dash (n : Nat) : ∀ c ∈ natDigits n, c ≠ '-' := by
  induction n using Nat.strong_induction_on with
  | _ n ih =>
    intro c hc
    rw [natDigits] at hc
    by_cases h : n < 10
    · rw [if_pos h] at hc
      rw [List.mem_singleton] at hc
      subst hc
      exact digitChar_ne_dash n h
    · rw [if_neg h] at hc
      rcases List.mem_append.mp hc with h1 | h1
      · exact ih (n / 10) (Nat.div_lt_self (by omega) (by omega)) c h1
      · rw [List.mem_singleton] at h1
        subst h1
        exact digitChar_ne_dash _ (Nat.mod_lt _ (by omega))

theorem digitsVal_natDigits (n : Nat) : digitsVal (natDigits n) = n := by
  induction n using Nat.strong_induction_on with
  | _ n ih =>
    rw [natDigits]
    by_cases h : n < 10
    · rw [if_pos h]
      simp [digitsVal, digitChar_toNat n h]
    · rw [if_neg h]
      have hlt : n / 10 < n := Nat.div_lt_self (by omega) (by omega)
      have hmod := digitChar_toNat (n % 10) (Nat.mod_lt _ (by omega))
      have hdiv := ih (n / 10) hlt
      simp only [digitsVal, List.foldl_append, List.foldl_cons,
        List.foldl_nil] at *
      rw [hdiv, hmod]
      omega

theorem natDigits_inj {m n : Nat} (h : natDigits m = natDigits n) :
    m = n := by
  have hm := digitsVal_natDigits m
  rw [h, digitsVal_natDigits] at hm
  exact hm.symm

theorem append_dash_inj : ∀ (a c b d : Str), (∀ x ∈ a, x ≠ '-') →
    (∀ x ∈ c, x ≠ '-') → a ++ '-' :: b = c ++ '-' :: d →
    a = c ∧ b = d := by
  intro a
  induction a with
  | nil =>
    intro c b d _ hc h
    cases c with
    | nil => simpa using h
    | cons y ys =>
      simp only [List.nil_append, List.cons_append, List.cons.injEq] at h
      exact absurd h.1.symm (hc y (List.mem_cons_self y ys))
  | cons x xs ih =>
    intro c b d ha hc h
    cases c with
    | nil =>
      simp only [List.cons_append, List.nil_append, List.cons.injEq] at h
      exact absurd h.1 (ha x (List.mem_cons_self x xs))
    | cons y ys =>
      simp only [List.cons_append, List.cons.injEq] at h
      obtain ⟨rfl, h2⟩ := h
      obtain ⟨h3, h4⟩ := ih ys b d
        (fun z hz => ha z (List.mem_cons_of_mem _ hz))
        (fun z hz => hc z (List.mem_cons_of_mem _ hz)) h2
      exact ⟨by rw [h3], h4⟩

theorem storedNameOf_inj {ts1 r1 ts2 r2 : Nat} {orig : Str}
    (h : storedNameOf ts1 r1 orig = storedNameOf ts2 r2 orig) :
    ts1 = ts2 ∧ r1 = r2 := by
  simp only [storedNameOf] at h
  obtain ⟨h1, h2⟩ := append_dash_inj (natDigits ts1) (natDigits ts2) _ _
    (natDigits_ne_dash ts1) (natDigits_ne_dash ts2) h
  obtain ⟨h3, -⟩ := append_dash_inj (natDigits r1) (natDigits r2) _ _
    (natDigits_ne_dash r1) (natDigits_ne_dash r2) h2
  exact ⟨natDigits_inj h1, natDigits_inj h3⟩

/-- C6 counterexample: two uploads of the same original filename that
draw the same clock value and the same random integer — possible, since
`Date.now()` has millisecond resolution and `Math.random()` gives no
uniqueness guarantee — produce the SAME `storedName`, even though the
two catalog records are distinct (fresh uuids).  This refutes the
claim's unconditional storedName distinctness. -/
theorem upload_colliding_draws_same_storedName :
    (uploadRecord 1700000000000 123 "id-1".toList "report.pdf".toList
        "application/pdf".toList "2024-01-01".toList 10).storedName
      = (uploadRecord 1700000000000 123 "id-2".toList "report.pdf".toList
          "application/pdf".toList "2024-01-01".toList 10).storedName ∧
    uploadRecord 1700000000000 123 "id-1".toList "report.pdf".toList
        "application/pdf".toList "2024-01-01".toList 10
      ≠ uploadRecord 1700000000000 123 "id-2".toList "report.pdf".toList
          "application/pdf".toList "2024-01-01".toList 10 := by
  constructor
  · rfl
  · intro h
    have := congrArg MediaRecord.id h
    simp [uploadRecord] at this

/-- C6 amended: two uploads with identical original filenames produce
two distinct catalog records whenever their generated uuids differ, and
two distinct `storedName` values whenever their (timestamp, random)
draws differ; the stored name is `<millis>-<random>-` followed by the
original name with every character outside `[A-Za-z0-9._-]` replaced by
`_`. -/
theorem upload_storedName_distinct :
    (∀ (ts1 r1 ts2 r2 : Nat) (orig id1 id2 mt1 mt2 d1 d2 : Str)
        (s1 s2 : Nat), id1 ≠ id2 →
        uploadRecord ts1 r1 id1 orig mt1 d1 s1
          ≠ uploadRecord ts2 r2 id2 orig mt2 d2 s2) ∧
    (∀ (ts1 r1 ts2 r2 : Nat) (orig : Str), (ts1, r1) ≠ (ts2, r2) →
        storedNameOf ts1 r1 orig ≠ storedNameOf ts2 r2 orig) ∧
    (∀ (ts r : Nat) (orig : Str),
        storedNameOf ts r orig
          = natDigits ts ++ '-' :: (natDigits r ++ '-'
              :: orig.map (fun c => if isSafeFileChar c then c else '_'))) := by
  refine ⟨?_, ?_, fun ts r orig => rfl⟩
  · intro ts1 r1 ts2 r2 orig id1 id2 mt1 mt2 d1 d2 s1 s2 hne heq
    exact hne (congrArg MediaRecord.id heq)
  · intro ts1 r1 ts2 r2 orig hne heq
    obtain ⟨h1, h2⟩ := storedNameOf_inj heq
    exact hne (by rw [h1, h2])

/-- Witness for the amended C6: distinct uuids give distinct records,
and distinct random draws give distinct stored names. -/
theorem upload_storedName_distinct_witness :
    uploadRecord 1 2 "id-1".toList "a.txt".toList [] [] 0
      ≠ uploadRecord 1 2 "id-2".toList "a.txt".toList [] [] 0 ∧
    storedNameOf 1 2 "a.txt".toList ≠ storedNameOf 1 3 "a.txt".toList :=
  ⟨upload_storedName_distinct.1 1 2 1 2 "a.txt".toList "id-1".toList
      "id-2".toList [] [] [] [] 0 0 (by decide),
   upload_storedName_distinct.2.1 1 2 1 3 "a.txt".toList (by decide)⟩
